import Mathlib

/-!
# cf-route-lookup: hostname to domain / route resolution

A shallow embedding of `plugin.go`.

* Go strings are lists of characters (`Str`).  The only separator the plugin
  splits on is the one-byte ".", so splitting and comparing by character agrees
  with Go's byte-wise behaviour.
* A Go `error` result is an `Option GoError`; `none` is `nil`.
* Go functions with several results return tuples, in the order of the Go
  signature.  With named results a bare `return` hands back the current value
  of every result variable, and the embedding does the same.
* The CLI connection is a state machine: every `curl` consumes the remote
  state and produces the next one.  `World.requests` records, oldest first,
  the paths that were requested.
* The two pagination loops (`for url != ""`) may run forever against a server
  that never stops handing out next links; they are bounded by `fuel`, the
  number of requests one loop may issue, and the result is `none` when the
  fuel is exhausted.
* Library code (`url.Values.Encode`, `json.Unmarshal`) is taken as a parameter
  (`Lib`).  Output printed with `fmt.Println` is not modelled.
-/

/-- Go strings, as the sequence of their characters. -/
abbrev Str := List Char

/-- The message of a Go error value. -/
abbrev GoError := Str

namespace strings

/-- Go's strings.Split for a one-character separator: the pieces of s between
consecutive separators; always at least one piece. -/
def Split : Str → Char → List Str
  | [], _ => [[]]
  | c :: cs, sep =>
    if c = sep then [] :: Split cs sep
    else
      match Split cs sep with
      | [] => [[c]]
      | p :: ps => (c :: p) :: ps

/-- Go's strings.Join: the elements with sep between each two neighbours. -/
def Join : List Str → Str → Str
  | [], _ => []
  | [a], _ => a
  | a :: b :: rest, sep => a ++ sep ++ Join (b :: rest) sep

end strings

/-- Modelled from the spec: ccv2.Domain is declared outside the repository; a
domain resource exposes at least a guid and a name. -/
structure Domain where
  GUID : Str
  Name : Str
deriving DecidableEq

/-- The zero value of Domain (an unset result variable). -/
def Domain.zero : Domain := ⟨[], []⟩

/-- Modelled from the spec: ccv2.Route is declared outside the repository; a
route resource exposes at least a host label and its domain association. -/
structure Route where
  GUID : Str
  Host : Str
  DomainGUID : Str
deriving DecidableEq

/-- The page envelope: domainsResponse and routesResponse differ only in the
resource type. -/
structure Response (α : Type) where
  NextUrl : Str
  Resources : List α
deriving DecidableEq

abbrev domainsResponse := Response Domain

abbrev routesResponse := Response Route

/-- The library functions the plugin calls: url.Values.Encode on the values
that were set, and json.Unmarshal into a fresh envelope of either shape. -/
structure Lib where
  Encode : List (Str × Str) → Str
  unmarshalDomains : Str → Except GoError domainsResponse
  unmarshalRoutes : Str → Except GoError routesResponse

/-- The plugin.CliConnection collaborator: running a CLI command in remote
state σ gives output lines, an error or nil, and the next remote state. -/
structure CliConnection (σ : Type) where
  CliCommandWithoutTerminalOutput : σ → List Str → (List Str × Option GoError) × σ

/-- The state threaded through the plugin: the remote side and the log of
requested paths, oldest first. -/
structure World (σ : Type) where
  remote : σ
  requests : List Str

/-- The function getPossibleDomains (plugin.go 27-35). -/
def getPossibleDomains (hostname : Str) : List Str :=
  let parts := strings.Split hostname '.'
  let numCombinations := parts.length - 1
  (List.range numCombinations).map (fun i => strings.Join (parts.drop i) ".".toList)

/-- The function apiCall (plugin.go 37-45). -/
def apiCall {σ : Type} (cliConnection : CliConnection σ) (path : Str) (w : World σ) :
    (Str × Option GoError) × World σ :=
  match cliConnection.CliCommandWithoutTerminalOutput w.remote ["curl".toList, path] with
  | ((bodyLines, err), remote) =>
    match err with
    | some e => (([], some e), World.mk remote (w.requests ++ [path]))
    | none => ((strings.Join bodyLines "\n".toList, none), World.mk remote (w.requests ++ [path]))

/-- The pagination loop `for url != ""` (plugin.go 64-79 and 115-130), started
with the resources accumulated so far.  The result is the accumulator and the
error at the moment the loop is left. -/
def paginate {σ α : Type} (cliConnection : CliConnection σ)
    (unmarshal : Str → Except GoError (Response α)) :
    Nat → Str → List α → World σ → Option ((List α × Option GoError) × World σ)
  | 0, url, acc, w => if url = [] then some ((acc, none), w) else none
  | fuel + 1, url, acc, w =>
    if url = [] then some ((acc, none), w)
    else
      match apiCall cliConnection url w with
      | ((_, some err), w1) => some ((acc, some err), w1)
      | ((body, none), w1) =>
        match unmarshal body with
        | Except.error err => some ((acc, some err), w1)
        | Except.ok data => paginate cliConnection unmarshal fuel data.NextUrl (acc ++ data.Resources) w1

/-- The query string built in getDomains (plugin.go 54-57). -/
def domainsQuery (lib : Lib) (names : List Str) : Str :=
  lib.Encode [("q".toList, "name IN ".toList ++ strings.Join names ",".toList),
    ("results-per-page".toList, "100".toList)]

/-- The loop over the endpoints in getDomains (plugin.go 59-80). -/
def getDomainsLoop {σ : Type} (lib : Lib) (cliConnection : CliConnection σ) (fuel : Nat)
    (queryString : Str) :
    List Str → List Domain → World σ → Option ((List Domain × Option GoError) × World σ)
  | [], domains, w => some ((domains, none), w)
  | endpoint :: rest, domains, w =>
    match paginate cliConnection lib.unmarshalDomains fuel (endpoint ++ "?".toList ++ queryString)
        domains w with
    | none => none
    | some ((domains1, some err), w1) => some ((domains1, some err), w1)
    | some ((domains1, none), w1) => getDomainsLoop lib cliConnection fuel queryString rest domains1 w1

/-- The endpoints queried by getDomains (plugin.go 52). -/
def endpoints : List Str := ["/v2/private_domains".toList, "/v2/shared_domains".toList]

/-- The function getDomains (plugin.go 47-83). -/
def getDomains {σ : Type} (lib : Lib) (cliConnection : CliConnection σ) (fuel : Nat)
    (names : List Str) (w : World σ) : Option ((List Domain × Option GoError) × World σ) :=
  getDomainsLoop lib cliConnection fuel (domainsQuery lib names) endpoints [] w

/-- The inner loop of getDomain (plugin.go 96-102): the first record of the
pool with the given name. -/
def findInPool (possibleDomain : Str) : List Domain → Option Domain
  | [] => none
  | domain :: rest => if domain.Name = possibleDomain then some domain else findInPool possibleDomain rest

/-- The nested loops of getDomain (plugin.go 95-103): candidates outermost. -/
def selectDomain : List Str → List Domain → Option Domain
  | [], _ => none
  | possibleDomain :: rest, domains =>
    match findInPool possibleDomain domains with
    | some domain => some domain
    | none => selectDomain rest domains

/-- The function getDomain (plugin.go 85-106): matchingDomain, found, err. -/
def getDomain {σ : Type} (lib : Lib) (cliConnection : CliConnection σ) (fuel : Nat)
    (hostname : Str) (w : World σ) : Option ((Domain × Bool × Option GoError) × World σ) :=
  let possibleDomains := getPossibleDomains hostname
  match getDomains lib cliConnection fuel possibleDomains w with
  | none => none
  | some ((_, some err), w1) => some ((Domain.zero, false, some err), w1)
  | some ((domains, none), w1) =>
    match selectDomain possibleDomains domains with
    | some domain => some ((domain, true, none), w1)
    | none => some ((Domain.zero, false, none), w1)

/-- The first path requested by getRoutes (plugin.go 112). -/
def routesUrl : Str := "/v2/routes?results-per-page=100".toList

/-- The function getRoutes (plugin.go 108-133). -/
def getRoutes {σ : Type} (lib : Lib) (cliConnection : CliConnection σ) (fuel : Nat)
    (w : World σ) : Option ((List Route × Option GoError) × World σ) :=
  paginate cliConnection lib.unmarshalRoutes fuel routesUrl [] w

/-- The filter loop of Run (plugin.go 161-168), started with the matches
collected so far. -/
def matchRoutes (subdomain : Str) : List Route → List Route → List Route
  | [], acc => acc
  | route :: rest, acc =>
    if route.Host = subdomain then matchRoutes subdomain rest (acc ++ [route])
    else matchRoutes subdomain rest acc

/-- The subdomain computed in Run (plugin.go 160). -/
def subdomainOf (hostname : Str) : Str :=
  (strings.Split hostname '.').headD []

/-- How one call of Run ends. -/
inductive Outcome where
  /-- An index into args is out of range (plugin.go 136, 141). -/
  | Panic
  /-- The first argument is another command: nothing is done. -/
  | Ignored
  /-- A log.Fatal after a failed fetch (plugin.go 144, 156), with its message. -/
  | Failure (message : Str)
  /-- The log.Fatal "Could not find matching domain." (plugin.go 147). -/
  | NoDomainFound
  /-- The return after "It's a domain! GUID:" (plugin.go 150-151). -/
  | ExactDomainMatch (guid : Str)
  /-- The end of Run with a non-empty match list. -/
  | RoutesFound (matched : List Route)
  /-- The end of Run after "Domain not found." (plugin.go 169-171). -/
  | NoRoutesFound
deriving DecidableEq

/-- The method BasicPlugin.Run (plugin.go 135-173). -/
def Run {σ : Type} (lib : Lib) (cliConnection : CliConnection σ) (fuel : Nat)
    (args : List Str) (w : World σ) : Option (Outcome × World σ) :=
  match args with
  | [] => some (Outcome.Panic, w)
  | command :: rest =>
    if command = "basic-plugin-command".toList then
      match rest with
      | [] => some (Outcome.Panic, w)
      | hostname :: _ =>
        match getDomain lib cliConnection fuel hostname w with
        | none => none
        | some ((domain, domainFound, err), w1) =>
          if err ≠ none then some (Outcome.Failure "Error retrieving the domains.".toList, w1)
          else if domainFound = false then some (Outcome.NoDomainFound, w1)
          else if domain.Name = hostname then some (Outcome.ExactDomainMatch domain.GUID, w1)
          else
            match getRoutes lib cliConnection fuel w1 with
            | none => none
            | some ((routes, err2), w2) =>
              if err2 ≠ none then some (Outcome.Failure "Error retrieving the routes.".toList, w2)
              else
                let subdomain := subdomainOf hostname
                let matched := matchRoutes subdomain routes []
                if matched.length = 0 then some (Outcome.NoRoutesFound, w2)
                else some (Outcome.RoutesFound matched, w2)
    else some (Outcome.Ignored, w)

/-- The resources of a sequence of pages, in page order. -/
def allResources {α : Type} : List (Response α) → List α
  | [] => []
  | page :: pages => page.Resources ++ allResources pages

/-- A finite chain of decodable pages: from remote state s, the request for
url and then for each page's NextUrl is answered without error by a body that
decodes to the next element of pages; every requested path is non-empty, and
the last page has an empty NextUrl.  The last argument is the remote state
after the last request. -/
inductive PageChain {σ α : Type} (cli : CliConnection σ)
    (unmarshal : Str → Except GoError (Response α)) :
    σ → Str → List (Response α) → σ → Prop where
  | last (s : σ) (url : Str) (lines : List Str) (s1 : σ) (page : Response α) :
      url ≠ [] →
      cli.CliCommandWithoutTerminalOutput s ["curl".toList, url] = ((lines, none), s1) →
      unmarshal (strings.Join lines "\n".toList) = Except.ok page →
      page.NextUrl = [] →
      PageChain cli unmarshal s url [page] s1
  | next (s : σ) (url : Str) (lines : List Str) (s1 : σ) (page : Response α)
      (pages : List (Response α)) (s2 : σ) :
      url ≠ [] →
      cli.CliCommandWithoutTerminalOutput s ["curl".toList, url] = ((lines, none), s1) →
      unmarshal (strings.Join lines "\n".toList) = Except.ok page →
      PageChain cli unmarshal s1 page.NextUrl pages s2 →
      PageChain cli unmarshal s url (page :: pages) s2

/-- A chain of decodable pages, each with a non-empty NextUrl, followed by a
request on which the first error occurs: the command fails, or its body does
not decode.  The error and the remote state after the failing request are the
last two arguments. -/
inductive FailsAfter {σ α : Type} (cli : CliConnection σ)
    (unmarshal : Str → Except GoError (Response α)) :
    σ → Str → List (Response α) → GoError → σ → Prop where
  | transport (s : σ) (url : Str) (lines : List Str) (e : GoError) (s1 : σ) :
      url ≠ [] →
      cli.CliCommandWithoutTerminalOutput s ["curl".toList, url] = ((lines, some e), s1) →
      FailsAfter cli unmarshal s url [] e s1
  | decode (s : σ) (url : Str) (lines : List Str) (e : GoError) (s1 : σ) :
      url ≠ [] →
      cli.CliCommandWithoutTerminalOutput s ["curl".toList, url] = ((lines, none), s1) →
      unmarshal (strings.Join lines "\n".toList) = Except.error e →
      FailsAfter cli unmarshal s url [] e s1
  | next (s : σ) (url : Str) (lines : List Str) (s1 : σ) (page : Response α)
      (pages : List (Response α)) (e : GoError) (s2 : σ) :
      url ≠ [] →
      cli.CliCommandWithoutTerminalOutput s ["curl".toList, url] = ((lines, none), s1) →
      unmarshal (strings.Join lines "\n".toList) = Except.ok page →
      FailsAfter cli unmarshal s1 page.NextUrl pages e s2 →
      FailsAfter cli unmarshal s url (page :: pages) e s2

/-- The first path requested by getDomains at an endpoint (plugin.go 60). -/
def domainsUrl (lib : Lib) (endpoint : Str) (names : List Str) : Str :=
  endpoint ++ "?".toList ++ domainsQuery lib names

/-! ## Concrete connections, decoders and records used to instantiate the theorems -/

/-- A scripted connection: the remote state is the list of answers still to be
given; each command takes the next one, and fails once the script is used up. -/
def scripted : CliConnection (List (List Str × Option GoError)) :=
  ⟨fun script _ =>
    match script with
    | [] => (([], some "connection refused".toList), [])
    | answer :: rest => (answer, rest)⟩

/-- A successful answer of one line. -/
def reply (body : String) : List Str × Option GoError := ([body.toList], none)

/-- A decoder given by a table from bodies to envelopes; every other body is a
decode error. -/
def decodeTable {α : Type} (table : List (Str × Response α)) (body : Str) :
    Except GoError (Response α) :=
  match table.lookup body with
  | some data => Except.ok data
  | none => Except.error "invalid character".toList

/-- A library whose decoders are tables and whose encoder writes key=value
pairs separated by an ampersand. -/
def tableLib (domainPages : List (Str × domainsResponse))
    (routePages : List (Str × routesResponse)) : Lib :=
  ⟨fun values => strings.Join (values.map (fun kv => kv.1 ++ "=".toList ++ kv.2)) "&".toList,
    decodeTable domainPages, decodeTable routePages⟩

def barExampleCom : Domain := ⟨"guid-bar".toList, "bar.example.com".toList⟩

def exampleCom : Domain := ⟨"guid-example".toList, "example.com".toList⟩

def localhostDomain : Domain := ⟨"guid-localhost".toList, "localhost".toList⟩

def fooRoute : Route := ⟨"route-1".toList, "foo".toList, "guid-example".toList⟩

def wwwRoute : Route := ⟨"route-2".toList, "www".toList, "guid-example".toList⟩

def apiRoute : Route := ⟨"route-3".toList, "api".toList, "guid-bar".toList⟩

/-- The private endpoint answers one page holding the given pool, the shared
endpoint one empty page. -/
def poolLib (pool : List Domain) (routePages : List (Str × routesResponse)) : Lib :=
  tableLib [("private".toList, ⟨[], pool⟩), ("shared".toList, ⟨[], []⟩)] routePages

/-- The script answering the two domain endpoints, then the given answers. -/
def poolScript (more : List (List Str × Option GoError)) : World (List (List Str × Option GoError)) :=
  ⟨reply "private" :: reply "shared" :: more, []⟩

/-- The command line that looks up a hostname. -/
def lookupArgs (hostname : String) : List Str := ["basic-plugin-command".toList, hostname.toList]

/-- The log of a domain fetch of one page per endpoint. -/
def domainRequests (lib : Lib) (names : List Str) : List Str :=
  [domainsUrl lib "/v2/private_domains".toList names,
    domainsUrl lib "/v2/shared_domains".toList names]

def routePage1 : routesResponse := ⟨"/v2/routes?page=2".toList, [fooRoute, wwwRoute]⟩

def routePage2 : routesResponse := ⟨[], [apiRoute]⟩

/-- The route bodies r1 and r2 decode to the two route pages. -/
def routeTable : List (Str × routesResponse) :=
  [("r1".toList, routePage1), ("r2".toList, routePage2)]

def privatePage : domainsResponse := ⟨[], [exampleCom]⟩

namespace strings

theorem Split_ne_nil (s : Str) (sep : Char) : Split s sep ≠ [] := by
  cases s with
  | nil => simp [Split]
  | cons c cs =>
    simp only [Split]
    split_ifs
    · simp
    · split <;> simp

theorem Join_cons_cons (c : Char) (p : Str) (ps : List Str) (sep : Str) :
    Join ((c :: p) :: ps) sep = c :: Join (p :: ps) sep := by
  cases ps <;> simp [Join]

theorem Join_Split (s : Str) (sep : Char) : Join (Split s sep) [sep] = s := by
  induction s with
  | nil => simp [Split, Join]
  | cons c cs ih =>
    simp only [Split]
    split_ifs with h
    · cases hs : Split cs sep with
      | nil => exact absurd hs (Split_ne_nil cs sep)
      | cons q qs =>
        rw [hs] at ih
        simp [Join, ih, h]
    · cases hs : Split cs sep with
      | nil => exact absurd hs (Split_ne_nil cs sep)
      | cons q qs =>
        rw [hs] at ih
        simp only []
        rw [Join_cons_cons, ih]

theorem Split_no_sep (s : Str) (sep : Char) : ∀ p ∈ Split s sep, sep ∉ p := by
  induction s with
  | nil => simp [Split]
  | cons c cs ih =>
    simp only [Split]
    split_ifs with h
    · intro p hp
      rcases List.mem_cons.1 hp with rfl | hp
      · simp
      · exact ih p hp
    · cases hs : Split cs sep with
      | nil => exact absurd hs (Split_ne_nil cs sep)
      | cons q qs =>
        rw [hs] at ih
        intro p hp
        rcases List.mem_cons.1 hp with rfl | hp
        · have := ih q (List.mem_cons_self _ _)
          simp only [List.mem_cons, not_or]
          exact ⟨fun e => h e.symm, this⟩
        · exact ih p (List.mem_cons_of_mem _ hp)

theorem Split_of_no_sep (a : Str) (sep : Char) (h : sep ∉ a) : Split a sep = [a] := by
  induction a with
  | nil => simp [Split]
  | cons c cs ih =>
    simp only [List.mem_cons, not_or] at h
    simp only [Split]
    rw [if_neg (fun e => h.1 e.symm), ih h.2]

theorem Split_cons_ne (c : Char) (cs : Str) (sep : Char) (p : Str) (ps : List Str)
    (hc : c ≠ sep) (hs : Split cs sep = p :: ps) : Split (c :: cs) sep = (c :: p) :: ps := by
  simp only [Split, if_neg hc, hs]

theorem Split_append_sep (a t : Str) (sep : Char) (h : sep ∉ a) :
    Split (a ++ sep :: t) sep = a :: Split t sep := by
  induction a with
  | nil => simp [Split]
  | cons c cs ih =>
    simp only [List.mem_cons, not_or] at h
    exact Split_cons_ne c (cs ++ sep :: t) sep cs (Split t sep) (fun e => h.1 e.symm) (ih h.2)

theorem Split_Join (ps : List Str) (sep : Char) (hne : ps ≠ []) (h : ∀ p ∈ ps, sep ∉ p) :
    Split (Join ps [sep]) sep = ps := by
  induction ps with
  | nil => exact absurd rfl hne
  | cons a rest ih =>
    cases rest with
    | nil => simpa [Join] using Split_of_no_sep a sep (h a (List.mem_cons_self _ _))
    | cons b rest =>
      have h1 := ih (by simp) (fun p hp => h p (List.mem_cons_of_mem _ hp))
      simp only [Join, List.append_assoc, List.singleton_append]
      rw [Split_append_sep _ _ _ (h a (List.mem_cons_self _ _)), h1]

theorem Join_append (xs ys : List Str) (sep : Str) (hx : xs ≠ []) (hy : ys ≠ []) :
    Join (xs ++ ys) sep = Join xs sep ++ sep ++ Join ys sep := by
  induction xs with
  | nil => exact absurd rfl hx
  | cons a rest ih =>
    cases rest with
    | nil =>
      cases ys with
      | nil => exact absurd rfl hy
      | cons y ys => simp [Join]
    | cons b rest =>
      have := ih (by simp)
      simp only [List.cons_append] at this ⊢
      simp only [Join, this, List.append_assoc]

end strings

namespace strings

theorem Split_length (s : Str) (sep : Char) : (Split s sep).length = s.count sep + 1 := by
  induction s with
  | nil => simp [Split]
  | cons c cs ih =>
    by_cases h : c = sep
    · subst h
      simp [Split, ih]
    · cases hs : Split cs sep with
      | nil => exact absurd hs (Split_ne_nil cs sep)
      | cons q qs =>
        rw [Split_cons_ne c cs sep q qs h hs]
        rw [hs] at ih
        simp only [List.length_cons] at ih ⊢
        simp [List.count_cons, h, ih]

theorem Split_length_eq_one (s : Str) (sep : Char) : (Split s sep).length = 1 ↔ sep ∉ s := by
  rw [Split_length]
  simp [List.count_eq_zero]

theorem Join_drop (ps : List Str) (sep : Str) (i : Nat) (h0 : 0 < i) (h : i < ps.length) :
    Join ps sep = Join (ps.take i) sep ++ sep ++ Join (ps.drop i) sep := by
  have e : ps = ps.take i ++ ps.drop i := (List.take_append_drop i ps).symm
  have h1 : ps.take i ≠ [] := by
    intro hn
    have := congrArg List.length hn
    rw [List.length_take, List.length_nil] at this
    omega
  have h2 : ps.drop i ≠ [] := by
    intro hn
    have := congrArg List.length hn
    rw [List.length_drop, List.length_nil] at this
    omega
  conv_lhs => rw [e]
  exact Join_append _ _ sep h1 h2

theorem Join_drop_suffix (ps : List Str) (sep : Str) (i : Nat) (h : i < ps.length) :
    Join (ps.drop i) sep <:+ Join ps sep := by
  rcases Nat.eq_zero_or_pos i with rfl | h0
  · simp
  · rw [Join_drop ps sep i h0 h]
    exact List.suffix_append _ _

theorem Join_ne_nil (ps : List Str) (sep : Str) (hs : sep ≠ []) (h : 2 ≤ ps.length) :
    Join ps sep ≠ [] := by
  match ps, h with
  | a :: b :: rest, _ =>
    simp [Join, hs]

end strings

theorem dot_toList : ".".toList = ['.'] := rfl

theorem getPossibleDomains_eq (hostname : Str) :
    getPossibleDomains hostname =
      (List.range ((strings.Split hostname '.').length - 1)).map
        (fun i => strings.Join ((strings.Split hostname '.').drop i) ['.']) := rfl

theorem getPossibleDomains_length (hostname : Str) :
    (getPossibleDomains hostname).length = (strings.Split hostname '.').length - 1 := by
  simp [getPossibleDomains_eq]

theorem getPossibleDomains_getElem? (hostname : Str) (i : Nat)
    (h : i + 1 < (strings.Split hostname '.').length) :
    (getPossibleDomains hostname)[i]? =
      some (strings.Join ((strings.Split hostname '.').drop i) ['.']) := by
  have hi : i < (strings.Split hostname '.').length - 1 := by omega
  simp [getPossibleDomains_eq, List.getElem?_map, List.getElem?_range hi]

theorem mem_getPossibleDomains (hostname c : Str) :
    c ∈ getPossibleDomains hostname ↔
      ∃ i, i + 1 < (strings.Split hostname '.').length ∧
        c = strings.Join ((strings.Split hostname '.').drop i) ['.'] := by
  simp only [getPossibleDomains_eq, List.mem_map, List.mem_range]
  constructor
  · rintro ⟨i, hi, rfl⟩
    exact ⟨i, by omega, rfl⟩
  · rintro ⟨i, hi, rfl⟩
    exact ⟨i, by omega, rfl⟩

theorem labels_of_candidate (hostname : Str) (i : Nat)
    (h : i < (strings.Split hostname '.').length) :
    strings.Split (strings.Join ((strings.Split hostname '.').drop i) ['.']) '.' =
      (strings.Split hostname '.').drop i := by
  apply strings.Split_Join
  · intro hn
    have := congrArg List.length hn
    rw [List.length_drop, List.length_nil] at this
    omega
  · intro p hp
    exact strings.Split_no_sep hostname '.' p (List.mem_of_mem_drop hp)

/-- C2: for a hostname with k labels, getPossibleDomains returns k-1 candidates,
each a non-empty suffix of the hostname, with strictly decreasing label counts;
when k is at least 2 the last candidate has exactly 2 labels; when k is 1,
which is the case of every hostname without a dot (the empty one included),
the list is empty. -/
theorem getPossibleDomains_candidates (hostname : Str) :
    (getPossibleDomains hostname).length = (strings.Split hostname '.').length - 1 ∧
    (∀ c ∈ getPossibleDomains hostname, c ≠ [] ∧ c <:+ hostname) ∧
    ((getPossibleDomains hostname).map (fun c => (strings.Split c '.').length)).Pairwise (· > ·) ∧
    (2 ≤ (strings.Split hostname '.').length →
      ∃ c, (getPossibleDomains hostname).getLast? = some c ∧ (strings.Split c '.').length = 2) ∧
    ((strings.Split hostname '.').length = 1 → getPossibleDomains hostname = []) ∧
    ('.' ∉ hostname → (strings.Split hostname '.').length = 1) := by
  refine ⟨getPossibleDomains_length hostname, ?_, ?_, ?_, ?_, ?_⟩
  · intro c hc
    obtain ⟨i, hi, rfl⟩ := (mem_getPossibleDomains hostname c).1 hc
    constructor
    · apply strings.Join_ne_nil _ _ (by simp)
      simp
      omega
    · have := strings.Join_drop_suffix (strings.Split hostname '.') ['.'] i (by omega)
      rwa [strings.Join_Split] at this
  · rw [getPossibleDomains_eq, List.map_map, List.pairwise_map]
    refine List.Pairwise.imp_of_mem ?_ (List.pairwise_lt_range _)
    intro a b ha hb hab
    simp only [List.mem_range] at ha hb
    simp only [Function.comp]
    rw [labels_of_candidate hostname a (by omega), labels_of_candidate hostname b (by omega)]
    simp
    omega
  · intro hk
    have hi : (strings.Split hostname '.').length - 2 + 1 < (strings.Split hostname '.').length := by
      omega
    refine ⟨strings.Join ((strings.Split hostname '.').drop ((strings.Split hostname '.').length - 2)) ['.'], ?_, ?_⟩
    · rw [List.getLast?_eq_getElem?, getPossibleDomains_length,
        show (strings.Split hostname '.').length - 1 - 1 = (strings.Split hostname '.').length - 2 from by omega]
      exact getPossibleDomains_getElem? hostname _ hi
    · rw [labels_of_candidate hostname _ (by omega)]
      simp
      omega
  · intro hk
    apply List.eq_nil_of_length_eq_zero
    rw [getPossibleDomains_length, hk]
  · intro h
    exact (strings.Split_length_eq_one hostname '.').2 h

theorem getPossibleDomains_candidates_witness :
    (getPossibleDomains "a.b.c.com".toList).length = 4 - 1 ∧
    (getPossibleDomains "a.b.c.com".toList).getLast? = some "c.com".toList ∧
    getPossibleDomains "localhost".toList = [] ∧
    getPossibleDomains [] = [] :=
  ⟨(getPossibleDomains_candidates "a.b.c.com".toList).1, by rfl,
    (getPossibleDomains_candidates "localhost".toList).2.2.2.2.1 (by decide),
    (getPossibleDomains_candidates []).2.2.2.2.1
      ((getPossibleDomains_candidates []).2.2.2.2.2 (by decide))⟩

/-- C3: the i-th candidate is the join with "." of the labels from the i-th on;
the first candidate is the hostname itself; and the candidates of
foo.bar.example.com are foo.bar.example.com, bar.example.com, example.com. -/
theorem getPossibleDomains_nth (hostname : Str) (i : Nat)
    (h : i + 1 < (strings.Split hostname '.').length) :
    (getPossibleDomains hostname)[i]? =
      some (strings.Join ((strings.Split hostname '.').drop i) ".".toList) ∧
    (getPossibleDomains hostname).head? = some hostname ∧
    getPossibleDomains "foo.bar.example.com".toList =
      ["foo.bar.example.com".toList, "bar.example.com".toList, "example.com".toList] := by
  refine ⟨getPossibleDomains_getElem? hostname i h, ?_, by rfl⟩
  have h0 := getPossibleDomains_getElem? hostname 0 (by omega)
  rw [List.drop_zero, strings.Join_Split] at h0
  rw [← h0, List.head?_eq_getElem?]

theorem getPossibleDomains_nth_witness :
    1 + 1 < (strings.Split "foo.bar.example.com".toList '.').length ∧
    (getPossibleDomains "foo.bar.example.com".toList)[1]? = some "bar.example.com".toList ∧
    (getPossibleDomains "foo.bar.example.com".toList).head? = some "foo.bar.example.com".toList :=
  ⟨by decide, (getPossibleDomains_nth "foo.bar.example.com".toList 1 (by decide)).1,
    (getPossibleDomains_nth "foo.bar.example.com".toList 1 (by decide)).2.1⟩

theorem findInPool_eq_find? (c : Str) (pool : List Domain) :
    findInPool c pool = pool.find? (fun r => decide (r.Name = c)) := by
  induction pool with
  | nil => rfl
  | cons r rest ih =>
    by_cases h : r.Name = c
    · simp [findInPool, List.find?, h]
    · simp [findInPool, List.find?, h, ih]

theorem findInPool_some (c : Str) (pool : List Domain) (d : Domain)
    (h : findInPool c pool = some d) : d ∈ pool ∧ d.Name = c := by
  rw [findInPool_eq_find?] at h
  exact ⟨List.mem_of_find?_eq_some h, by simpa using List.find?_some h⟩

theorem findInPool_eq_none (c : Str) (pool : List Domain) :
    findInPool c pool = none ↔ ∀ r ∈ pool, r.Name ≠ c := by
  rw [findInPool_eq_find?, List.find?_eq_none]
  simp

theorem findInPool_isSome_perm (c : Str) (pool pool2 : List Domain) (hp : pool2.Perm pool)
    (d : Domain) (h : findInPool c pool = some d) :
    ∃ d2, findInPool c pool2 = some d2 ∧ d2.Name = c := by
  obtain ⟨hm, hn⟩ := findInPool_some c pool d h
  cases h2 : findInPool c pool2 with
  | none =>
    exact absurd hn ((findInPool_eq_none c pool2).1 h2 d (hp.symm.subset hm))
  | some d2 => exact ⟨d2, rfl, (findInPool_some c pool2 d2 h2).2⟩

theorem selectDomain_eq_none (cands : List Str) (pool : List Domain) :
    selectDomain cands pool = none ↔ ∀ c ∈ cands, ∀ r ∈ pool, r.Name ≠ c := by
  induction cands with
  | nil => simp [selectDomain]
  | cons c rest ih =>
    simp only [selectDomain]
    cases hf : findInPool c pool with
    | none =>
      simp only [ih, List.mem_cons, forall_eq_or_imp]
      exact ⟨fun h => ⟨(findInPool_eq_none c pool).1 hf, h⟩, fun h => h.2⟩
    | some d =>
      obtain ⟨hm, hn⟩ := findInPool_some c pool d hf
      simp only [List.mem_cons, forall_eq_or_imp, false_iff, not_and, reduceCtorEq]
      intro h
      exact absurd hn (h d hm)

theorem selectDomain_some (cands : List Str) (pool : List Domain) (d : Domain)
    (h : selectDomain cands pool = some d) :
    (∃ pre post, cands = pre ++ d.Name :: post ∧ ∀ c ∈ pre, ∀ r ∈ pool, r.Name ≠ c) ∧
    findInPool d.Name pool = some d := by
  induction cands with
  | nil => simp [selectDomain] at h
  | cons c rest ih =>
    simp only [selectDomain] at h
    cases hf : findInPool c pool with
    | none =>
      rw [hf] at h
      obtain ⟨⟨pre, post, he, hpre⟩, hfind⟩ := ih h
      refine ⟨⟨c :: pre, post, by rw [he]; rfl, ?_⟩, hfind⟩
      intro c2 hc2
      rcases List.mem_cons.1 hc2 with rfl | hc2
      · exact (findInPool_eq_none _ pool).1 hf
      · exact hpre c2 hc2
    | some d2 =>
      rw [hf] at h
      simp only [Option.some.injEq] at h
      subst h
      have hn := (findInPool_some c pool d2 hf).2
      subst hn
      exact ⟨⟨[], rest, rfl, by simp⟩, hf⟩

theorem selectDomain_perm (cands : List Str) (pool pool2 : List Domain) (hp : pool2.Perm pool)
    (d : Domain) (h : selectDomain cands pool = some d) :
    ∃ d2, selectDomain cands pool2 = some d2 ∧ d2.Name = d.Name := by
  induction cands with
  | nil => simp [selectDomain] at h
  | cons c rest ih =>
    simp only [selectDomain] at h ⊢
    cases hf : findInPool c pool with
    | none =>
      rw [hf] at h
      have hf2 : findInPool c pool2 = none :=
        (findInPool_eq_none c pool2).2
          (fun r hr => (findInPool_eq_none c pool).1 hf r (hp.subset hr))
      rw [hf2]
      exact ih h
    | some d1 =>
      rw [hf] at h
      simp only [Option.some.injEq] at h
      subst h
      obtain ⟨d2, h2, hn⟩ := findInPool_isSome_perm c pool pool2 hp d1 hf
      rw [h2]
      exact ⟨d2, rfl, hn.trans (findInPool_some c pool d1 hf).2.symm⟩

theorem getDomain_of_getDomains {σ : Type} (lib : Lib) (cli : CliConnection σ) (fuel : Nat)
    (hostname : Str) (w w1 : World σ) (pool : List Domain)
    (h : getDomains lib cli fuel (getPossibleDomains hostname) w = some ((pool, none), w1)) :
    getDomain lib cli fuel hostname w =
      match selectDomain (getPossibleDomains hostname) pool with
      | some domain => some ((domain, true, none), w1)
      | none => some ((Domain.zero, false, none), w1) := by
  simp only [getDomain, h]

theorem getDomain_found {σ : Type} (lib : Lib) (cli : CliConnection σ) (fuel : Nat)
    (hostname : Str) (w w1 : World σ) (d : Domain) (err : Option GoError)
    (h : getDomain lib cli fuel hostname w = some ((d, true, err), w1)) :
    err = none ∧ ∃ pool, getDomains lib cli fuel (getPossibleDomains hostname) w =
        some ((pool, none), w1) ∧ selectDomain (getPossibleDomains hostname) pool = some d := by
  simp only [getDomain] at h
  split at h
  · simp at h
  · simp at h
  · rename_i pool w2 hg
    split at h
    · rename_i d2 hs
      simp only [Option.some.injEq, Prod.mk.injEq] at h
      obtain ⟨⟨rfl, -, rfl⟩, rfl⟩ := h
      exact ⟨rfl, pool, hg, hs⟩
    · simp at h

/-- C1: when getDomain reports found, the pool fetched by getDomains holds no
record named like a candidate more specific than the returned one, the returned
record is the first pool record with its name, and every fetch returning a
permutation of that pool makes getDomain select a domain with the same name. -/
theorem getDomain_most_specific {σ : Type} (lib : Lib) (cli : CliConnection σ) (fuel : Nat)
    (hostname : Str) (w w1 : World σ) (d : Domain) (err : Option GoError)
    (h : getDomain lib cli fuel hostname w = some ((d, true, err), w1)) :
    ∃ pool, getDomains lib cli fuel (getPossibleDomains hostname) w = some ((pool, none), w1) ∧
      (∃ pre post, getPossibleDomains hostname = pre ++ d.Name :: post ∧
        ∀ c ∈ pre, ∀ r ∈ pool, r.Name ≠ c) ∧
      pool.find? (fun r => decide (r.Name = d.Name)) = some d ∧
      ∀ (τ : Type) (lib2 : Lib) (cli2 : CliConnection τ) (fuel2 : Nat) (v v1 : World τ)
        (pool2 : List Domain),
        getDomains lib2 cli2 fuel2 (getPossibleDomains hostname) v = some ((pool2, none), v1) →
        pool2.Perm pool →
        ∃ d2, getDomain lib2 cli2 fuel2 hostname v = some ((d2, true, none), v1) ∧
          d2.Name = d.Name := by
  obtain ⟨-, pool, hg, hs⟩ := getDomain_found lib cli fuel hostname w w1 d err h
  obtain ⟨hpre, hfind⟩ := selectDomain_some _ pool d hs
  refine ⟨pool, hg, hpre, ?_, ?_⟩
  · rw [← findInPool_eq_find?]
    exact hfind
  · intro τ lib2 cli2 fuel2 v v1 pool2 hg2 hp
    obtain ⟨d2, hs2, hn⟩ := selectDomain_perm _ pool pool2 hp d hs
    refine ⟨d2, ?_, hn⟩
    rw [getDomain_of_getDomains lib2 cli2 fuel2 hostname v v1 pool2 hg2, hs2]
theorem apiCall_ok {σ : Type} (cli : CliConnection σ) (url : Str) (w : World σ)
    (lines : List Str) (s1 : σ)
    (h : cli.CliCommandWithoutTerminalOutput w.remote ["curl".toList, url] = ((lines, none), s1)) :
    apiCall cli url w =
      ((strings.Join lines "\n".toList, none), World.mk s1 (w.requests ++ [url])) := by
  simp only [apiCall, h]

theorem apiCall_err {σ : Type} (cli : CliConnection σ) (url : Str) (w : World σ)
    (lines : List Str) (e : GoError) (s1 : σ)
    (h : cli.CliCommandWithoutTerminalOutput w.remote ["curl".toList, url] =
      ((lines, some e), s1)) :
    apiCall cli url w = (([], some e), World.mk s1 (w.requests ++ [url])) := by
  simp only [apiCall, h]

theorem paginate_nil {σ α : Type} (cli : CliConnection σ)
    (unmarshal : Str → Except GoError (Response α)) (fuel : Nat) (acc : List α) (w : World σ) :
    paginate cli unmarshal fuel [] acc w = some ((acc, none), w) := by
  cases fuel <;> simp [paginate]

theorem paginate_chain {σ α : Type} (cli : CliConnection σ)
    (unmarshal : Str → Except GoError (Response α)) (s : σ) (url : Str)
    (pages : List (Response α)) (s1 : σ) (hc : PageChain cli unmarshal s url pages s1) :
    ∀ (fuel : Nat) (acc : List α) (log : List Str), pages.length ≤ fuel →
      paginate cli unmarshal fuel url acc (World.mk s log) =
        some ((acc ++ allResources pages, none),
          World.mk s1 (log ++ url :: pages.dropLast.map Response.NextUrl)) := by
  induction hc with
  | last s url lines s1 page hu hcall hdec hnext =>
    intro fuel acc log hf
    cases fuel with
    | zero => simp at hf
    | succ fuel =>
      simp only [paginate, if_neg hu]
      rw [apiCall_ok cli url (World.mk s log) lines s1 hcall]
      simp only [hdec, hnext, paginate_nil, allResources, List.append_nil, List.dropLast_single,
        List.map_nil]
  | next s url lines s1 page pages s2 hu hcall hdec hrest ih =>
    intro fuel acc log hf
    cases fuel with
    | zero => simp at hf
    | succ fuel =>
      simp only [paginate, if_neg hu]
      rw [apiCall_ok cli url (World.mk s log) lines s1 hcall]
      simp only [hdec]
      rw [ih fuel _ _ (by simpa using hf)]
      cases pages with
      | nil => cases hrest
      | cons p ps => simp [allResources, List.dropLast]

theorem paginate_fails {σ α : Type} (cli : CliConnection σ)
    (unmarshal : Str → Except GoError (Response α)) (s : σ) (url : Str)
    (pages : List (Response α)) (e : GoError) (s1 : σ)
    (hc : FailsAfter cli unmarshal s url pages e s1) :
    ∀ (fuel : Nat) (acc : List α) (log : List Str), pages.length + 1 ≤ fuel →
      paginate cli unmarshal fuel url acc (World.mk s log) =
        some ((acc ++ allResources pages, some e),
          World.mk s1 (log ++ url :: pages.map Response.NextUrl)) := by
  induction hc with
  | transport s url lines e s1 hu hcall =>
    intro fuel acc log hf
    cases fuel with
    | zero => simp at hf
    | succ fuel =>
      simp only [paginate, if_neg hu]
      rw [apiCall_err cli url (World.mk s log) lines e s1 hcall]
      simp [allResources]
  | decode s url lines e s1 hu hcall hdec =>
    intro fuel acc log hf
    cases fuel with
    | zero => simp at hf
    | succ fuel =>
      simp only [paginate, if_neg hu]
      rw [apiCall_ok cli url (World.mk s log) lines s1 hcall]
      simp only [hdec]
      simp [allResources]
  | next s url lines s1 page pages e s2 hu hcall hdec _ ih =>
    intro fuel acc log hf
    cases fuel with
    | zero => simp at hf
    | succ fuel =>
      simp only [paginate, if_neg hu]
      rw [apiCall_ok cli url (World.mk s log) lines s1 hcall]
      simp only [hdec]
      rw [ih fuel _ _ (by simpa using hf)]
      simp [allResources]
theorem getDomain_most_specific_witness :
    getDomain (poolLib [exampleCom, barExampleCom] []) scripted 2 "foo.bar.example.com".toList
        (poolScript []) =
      some ((barExampleCom, true, none), World.mk []
        (domainRequests (poolLib [] []) (getPossibleDomains "foo.bar.example.com".toList))) ∧
    getDomain (poolLib [barExampleCom, exampleCom] []) scripted 2 "foo.bar.example.com".toList
        (poolScript []) =
      some ((barExampleCom, true, none), World.mk []
        (domainRequests (poolLib [] []) (getPossibleDomains "foo.bar.example.com".toList))) ∧
    ∃ pool, getDomains (poolLib [exampleCom, barExampleCom] []) scripted 2
        (getPossibleDomains "foo.bar.example.com".toList) (poolScript []) =
        some ((pool, none), World.mk []
          (domainRequests (poolLib [] []) (getPossibleDomains "foo.bar.example.com".toList))) ∧
      (∃ pre post, getPossibleDomains "foo.bar.example.com".toList =
          pre ++ barExampleCom.Name :: post ∧ ∀ c ∈ pre, ∀ r ∈ pool, r.Name ≠ c) ∧
      pool.find? (fun r => decide (r.Name = barExampleCom.Name)) = some barExampleCom ∧
      ∀ (τ : Type) (lib2 : Lib) (cli2 : CliConnection τ) (fuel2 : Nat) (v v1 : World τ)
        (pool2 : List Domain),
        getDomains lib2 cli2 fuel2 (getPossibleDomains "foo.bar.example.com".toList) v =
          some ((pool2, none), v1) →
        pool2.Perm pool →
        ∃ d2, getDomain lib2 cli2 fuel2 "foo.bar.example.com".toList v =
            some ((d2, true, none), v1) ∧ d2.Name = barExampleCom.Name :=
  ⟨rfl, rfl, getDomain_most_specific (poolLib [exampleCom, barExampleCom] []) scripted 2
    "foo.bar.example.com".toList (poolScript []) _ barExampleCom none rfl⟩

/-- C6: when the answers from the first routes path on form a chain of n pages
ending in an empty NextUrl, getRoutes (with fuel for n requests) returns without
error the resources of the pages in page order, after exactly n requests: the
first path, then the NextUrl of every page but the last; a single page gives
exactly its resources. -/
theorem getRoutes_chain {σ : Type} (lib : Lib) (cli : CliConnection σ) (fuel : Nat)
    (w : World σ) (pages : List routesResponse) (s1 : σ)
    (hc : PageChain cli lib.unmarshalRoutes w.remote routesUrl pages s1)
    (hf : pages.length ≤ fuel) :
    getRoutes lib cli fuel w =
      some ((allResources pages, none),
        World.mk s1 (w.requests ++ routesUrl :: pages.dropLast.map Response.NextUrl)) ∧
    (routesUrl :: pages.dropLast.map Response.NextUrl).length = pages.length ∧
    1 ≤ pages.length ∧
    ∀ page, pages = [page] →
      getRoutes lib cli fuel w =
        some ((page.Resources, none), World.mk s1 (w.requests ++ [routesUrl])) := by
  have hg := paginate_chain cli lib.unmarshalRoutes w.remote routesUrl pages s1 hc fuel []
    w.requests hf
  have hn : 1 ≤ pages.length := by
    cases hc <;> simp
  refine ⟨?_, ?_, hn, ?_⟩
  · simpa [getRoutes] using hg
  · simp
    omega
  · rintro page rfl
    simpa [getRoutes, allResources] using hg

theorem getRoutes_chain_witness :
    PageChain scripted (tableLib [] routeTable).unmarshalRoutes [reply "r1", reply "r2"]
      routesUrl [routePage1, routePage2] [] ∧
    getRoutes (tableLib [] routeTable) scripted 2 (World.mk [reply "r1", reply "r2"] []) =
      some (([fooRoute, wwwRoute, apiRoute], none),
        World.mk [] [routesUrl, "/v2/routes?page=2".toList]) :=
  ⟨PageChain.next _ _ ["r1".toList] _ routePage1 _ _ (by decide) rfl rfl
      (PageChain.last _ _ ["r2".toList] _ routePage2 (by decide) rfl rfl rfl),
    (getRoutes_chain (tableLib [] routeTable) scripted 2 (World.mk [reply "r1", reply "r2"] [])
      [routePage1, routePage2] []
      (PageChain.next _ _ ["r1".toList] _ routePage1 _ _ (by decide) rfl rfl
        (PageChain.last _ _ ["r2".toList] _ routePage2 (by decide) rfl rfl rfl))
      (by decide)).1⟩
theorem getDomains_fails_private {σ : Type} (lib : Lib) (cli : CliConnection σ) (fuel : Nat)
    (names : List Str) (w : World σ) (pages : List domainsResponse) (e : GoError) (s1 : σ)
    (hc : FailsAfter cli lib.unmarshalDomains w.remote
      (domainsUrl lib "/v2/private_domains".toList names) pages e s1)
    (hf : pages.length + 1 ≤ fuel) :
    getDomains lib cli fuel names w =
      some ((allResources pages, some e),
        World.mk s1 (w.requests ++
          domainsUrl lib "/v2/private_domains".toList names :: pages.map Response.NextUrl)) := by
  have hg := paginate_fails cli lib.unmarshalDomains w.remote _ pages e s1 hc fuel []
    w.requests hf
  simp only [domainsUrl] at hg
  simp only [getDomains, endpoints, getDomainsLoop, hg, domainsUrl, List.nil_append]

theorem getDomains_fails_shared {σ : Type} (lib : Lib) (cli : CliConnection σ) (fuel : Nat)
    (names : List Str) (w : World σ) (pages1 : List domainsResponse) (s1 : σ)
    (pages2 : List domainsResponse) (e : GoError) (s2 : σ)
    (hc1 : PageChain cli lib.unmarshalDomains w.remote
      (domainsUrl lib "/v2/private_domains".toList names) pages1 s1)
    (hc2 : FailsAfter cli lib.unmarshalDomains s1
      (domainsUrl lib "/v2/shared_domains".toList names) pages2 e s2)
    (hf1 : pages1.length ≤ fuel) (hf2 : pages2.length + 1 ≤ fuel) :
    getDomains lib cli fuel names w =
      some ((allResources pages1 ++ allResources pages2, some e),
        World.mk s2 (w.requests ++
          (domainsUrl lib "/v2/private_domains".toList names ::
            pages1.dropLast.map Response.NextUrl) ++
          (domainsUrl lib "/v2/shared_domains".toList names ::
            pages2.map Response.NextUrl))) := by
  have hg1 := paginate_chain cli lib.unmarshalDomains w.remote _ pages1 s1 hc1 fuel []
    w.requests hf1
  have hg2 := paginate_fails cli lib.unmarshalDomains s1 _ pages2 e s2 hc2 fuel
    ([] ++ allResources pages1)
    (w.requests ++ domainsUrl lib "/v2/private_domains".toList names ::
      pages1.dropLast.map Response.NextUrl) hf2
  simp only [domainsUrl] at hg1 hg2
  simp only [getDomains, endpoints, getDomainsLoop, hg1, hg2, domainsUrl]
  simp

theorem Run_lookup {σ : Type} (lib : Lib) (cli : CliConnection σ) (fuel : Nat)
    (hostname : Str) (rest : List Str) (w w1 : World σ) (d : Domain) (found : Bool)
    (err : Option GoError)
    (h : getDomain lib cli fuel hostname w = some ((d, found, err), w1)) :
    Run lib cli fuel ("basic-plugin-command".toList :: hostname :: rest) w =
      if err ≠ none then some (Outcome.Failure "Error retrieving the domains.".toList, w1)
      else if found = false then some (Outcome.NoDomainFound, w1)
      else if d.Name = hostname then some (Outcome.ExactDomainMatch d.GUID, w1)
      else
        match getRoutes lib cli fuel w1 with
        | none => none
        | some ((routes, err2), w2) =>
          if err2 ≠ none then some (Outcome.Failure "Error retrieving the routes.".toList, w2)
          else if (matchRoutes (subdomainOf hostname) routes []).length = 0 then
            some (Outcome.NoRoutesFound, w2)
          else some (Outcome.RoutesFound (matchRoutes (subdomainOf hostname) routes []), w2) := by
  simp only [Run, h, if_true]

/-- C7 as stated fails: the second request of getRoutes is the first to fail,
and the routes of page 1 are returned next to the error. -/
theorem getRoutes_error_keeps_accumulated :
    FailsAfter scripted (tableLib [] routeTable).unmarshalRoutes [reply "r1"] routesUrl
      [routePage1] "connection refused".toList [] ∧
    getRoutes (tableLib [] routeTable) scripted 5 (World.mk [reply "r1"] []) =
      some (([fooRoute, wwwRoute], some "connection refused".toList),
        World.mk [] [routesUrl, "/v2/routes?page=2".toList]) ∧
    ¬ ∀ (routes : List Route) (err : Option GoError) (w1 : World _),
      getRoutes (tableLib [] routeTable) scripted 5 (World.mk [reply "r1"] []) =
        some ((routes, err), w1) → ∀ r ∈ allResources [routePage1], r ∉ routes :=
  ⟨FailsAfter.next _ _ ["r1".toList] _ routePage1 _ _ _ (by decide) rfl rfl
      (FailsAfter.transport _ _ [] _ _ (by decide) rfl),
    rfl,
    fun h => h [fooRoute, wwwRoute] (some "connection refused".toList) _ rfl fooRoute
      (by decide) (by decide)⟩

/-- C7, amended: when the first transport or decode error occurs on request i of
a fetch, getRoutes and getDomains return a non-nil error right after that
request, having issued exactly the i requests up to it (getDomains none to the
second endpoint when the first fails), and the list returned next to the error
is the accumulation of the resources of pages 1..i-1; the callers drop that
list: getDomain reports the error with the zero domain and found=false, and Run
ends in Failure. -/
theorem fetch_failure {σ : Type} (lib : Lib) (cli : CliConnection σ) (fuel : Nat)
    (w : World σ) :
    (∀ pages e s1,
      FailsAfter cli lib.unmarshalRoutes w.remote routesUrl pages e s1 →
      pages.length + 1 ≤ fuel →
      getRoutes lib cli fuel w =
        some ((allResources pages, some e),
          World.mk s1 (w.requests ++ routesUrl :: pages.map Response.NextUrl))) ∧
    (∀ names pages e s1,
      FailsAfter cli lib.unmarshalDomains w.remote
        (domainsUrl lib "/v2/private_domains".toList names) pages e s1 →
      pages.length + 1 ≤ fuel →
      getDomains lib cli fuel names w =
        some ((allResources pages, some e),
          World.mk s1 (w.requests ++
            domainsUrl lib "/v2/private_domains".toList names :: pages.map Response.NextUrl))) ∧
    (∀ names pages1 s1 pages2 e s2,
      PageChain cli lib.unmarshalDomains w.remote
        (domainsUrl lib "/v2/private_domains".toList names) pages1 s1 →
      FailsAfter cli lib.unmarshalDomains s1
        (domainsUrl lib "/v2/shared_domains".toList names) pages2 e s2 →
      pages1.length ≤ fuel → pages2.length + 1 ≤ fuel →
      getDomains lib cli fuel names w =
        some ((allResources pages1 ++ allResources pages2, some e),
          World.mk s2 (w.requests ++
            (domainsUrl lib "/v2/private_domains".toList names ::
              pages1.dropLast.map Response.NextUrl) ++
            (domainsUrl lib "/v2/shared_domains".toList names ::
              pages2.map Response.NextUrl)))) ∧
    (∀ hostname rest pool e w1,
      getDomains lib cli fuel (getPossibleDomains hostname) w = some ((pool, some e), w1) →
      getDomain lib cli fuel hostname w = some ((Domain.zero, false, some e), w1) ∧
      Run lib cli fuel ("basic-plugin-command".toList :: hostname :: rest) w =
        some (Outcome.Failure "Error retrieving the domains.".toList, w1)) ∧
    (∀ hostname rest d w1 routes e w2,
      getDomain lib cli fuel hostname w = some ((d, true, none), w1) →
      d.Name ≠ hostname →
      getRoutes lib cli fuel w1 = some ((routes, some e), w2) →
      Run lib cli fuel ("basic-plugin-command".toList :: hostname :: rest) w =
        some (Outcome.Failure "Error retrieving the routes.".toList, w2)) := by
  refine ⟨?_, ?_, ?_, ?_, ?_⟩
  · intro pages e s1 hc hf
    simpa [getRoutes] using
      paginate_fails cli lib.unmarshalRoutes w.remote routesUrl pages e s1 hc fuel [] w.requests hf
  · intro names pages e s1 hc hf
    exact getDomains_fails_private lib cli fuel names w pages e s1 hc hf
  · intro names pages1 s1 pages2 e s2 hc1 hc2 hf1 hf2
    exact getDomains_fails_shared lib cli fuel names w pages1 s1 pages2 e s2 hc1 hc2 hf1 hf2
  · intro hostname rest pool e w1 hg
    have hd : getDomain lib cli fuel hostname w = some ((Domain.zero, false, some e), w1) := by
      simp only [getDomain, hg]
    refine ⟨hd, ?_⟩
    rw [Run_lookup lib cli fuel hostname rest w w1 Domain.zero false (some e) hd]
    simp
  · intro hostname rest d w1 routes e w2 hd hne hr
    rw [Run_lookup lib cli fuel hostname rest w w1 d true none hd]
    simp [hne, hr]

theorem fetch_failure_witness :
    getRoutes (tableLib [] routeTable) scripted 2 (World.mk [reply "r1"] []) =
      some (([fooRoute, wwwRoute], some "connection refused".toList),
        World.mk [] [routesUrl, "/v2/routes?page=2".toList]) ∧
    getDomains (poolLib [exampleCom] []) scripted 2 ["example.com".toList] (World.mk [] []) =
      some (([], some "connection refused".toList),
        World.mk [] [domainsUrl (poolLib [] []) "/v2/private_domains".toList
          ["example.com".toList]]) ∧
    getDomains (poolLib [exampleCom] []) scripted 2 ["example.com".toList]
        (World.mk [reply "private", reply "garbled"] []) =
      some (([exampleCom], some "invalid character".toList),
        World.mk [] (domainRequests (poolLib [] []) ["example.com".toList])) ∧
    (getDomain (poolLib [exampleCom] []) scripted 2 "example.com".toList
        (World.mk [reply "private", reply "garbled"] []) =
      some ((Domain.zero, false, some "invalid character".toList),
        World.mk [] (domainRequests (poolLib [] []) ["example.com".toList])) ∧
      Run (poolLib [exampleCom] []) scripted 2 (lookupArgs "example.com")
        (World.mk [reply "private", reply "garbled"] []) =
      some (Outcome.Failure "Error retrieving the domains.".toList,
        World.mk [] (domainRequests (poolLib [] []) ["example.com".toList]))) ∧
    Run (poolLib [exampleCom] routeTable) scripted 2 (lookupArgs "foo.example.com")
        (poolScript [reply "r1"]) =
      some (Outcome.Failure "Error retrieving the routes.".toList,
        World.mk [] (domainRequests (poolLib [] []) (getPossibleDomains "foo.example.com".toList)
          ++ [routesUrl, "/v2/routes?page=2".toList])) :=
  ⟨(fetch_failure (tableLib [] routeTable) scripted 2 (World.mk [reply "r1"] [])).1
      [routePage1] "connection refused".toList []
      (FailsAfter.next _ _ ["r1".toList] _ routePage1 _ _ _ (by decide) rfl rfl
        (FailsAfter.transport _ _ [] _ _ (by decide) rfl))
      (by decide),
    (fetch_failure (poolLib [exampleCom] []) scripted 2 (World.mk [] [])).2.1
      ["example.com".toList] [] "connection refused".toList []
      (FailsAfter.transport _ _ [] _ _ (by decide) rfl) (by decide),
    (fetch_failure (poolLib [exampleCom] []) scripted 2
      (World.mk [reply "private", reply "garbled"] [])).2.2.1
      ["example.com".toList] [privatePage] [reply "garbled"] [] "invalid character".toList []
      (PageChain.last _ _ ["private".toList] _ privatePage (by decide) rfl rfl rfl)
      (FailsAfter.decode _ _ ["garbled".toList] _ _ (by decide) rfl rfl)
      (by decide) (by decide),
    (fetch_failure (poolLib [exampleCom] []) scripted 2
      (World.mk [reply "private", reply "garbled"] [])).2.2.2.1
      "example.com".toList [] [exampleCom] "invalid character".toList _ rfl,
    (fetch_failure (poolLib [exampleCom] routeTable) scripted 2
      (poolScript [reply "r1"])).2.2.2.2
      "foo.example.com".toList [] exampleCom
      (World.mk [reply "r1"]
        (domainRequests (poolLib [] []) (getPossibleDomains "foo.example.com".toList)))
      [fooRoute, wwwRoute] "connection refused".toList _ rfl (by decide) rfl⟩
theorem Split_length_ge_two (hostname : Str) (h : '.' ∈ hostname) :
    2 ≤ (strings.Split hostname '.').length := by
  rw [strings.Split_length]
  have := List.count_pos_iff.2 h
  omega

theorem getPossibleDomains_cons (hostname : Str) (h : '.' ∈ hostname) :
    ∃ rest, getPossibleDomains hostname = hostname :: rest := by
  have hk := Split_length_ge_two hostname h
  have h0 := getPossibleDomains_getElem? hostname 0 (by omega)
  rw [List.drop_zero, strings.Join_Split] at h0
  cases hc : getPossibleDomains hostname with
  | nil => rw [hc] at h0; simp at h0
  | cons c rest =>
    rw [hc] at h0
    simp only [List.getElem?_cons_zero, Option.some.injEq] at h0
    exact ⟨rest, by rw [h0]⟩

theorem getPossibleDomains_of_no_dot (hostname : Str) (h : '.' ∉ hostname) :
    getPossibleDomains hostname = [] := by
  apply List.eq_nil_of_length_eq_zero
  rw [getPossibleDomains_length, (strings.Split_length_eq_one hostname '.').2 h]

theorem matchRoutes_eq_filter (subdomain : Str) (routes acc : List Route) :
    matchRoutes subdomain routes acc =
      acc ++ routes.filter (fun r => decide (r.Host = subdomain)) := by
  induction routes generalizing acc with
  | nil => simp [matchRoutes]
  | cons r rest ih =>
    by_cases h : r.Host = subdomain
    · simp [matchRoutes, h, ih]
    · simp [matchRoutes, h, ih]

/-- C4 as stated fails for a hostname of one label: localhost is in the fetched
pool under exactly that name, and Run ends in NoDomainFound. -/
theorem exact_match_single_label :
    getDomains (poolLib [localhostDomain] []) scripted 2 (getPossibleDomains "localhost".toList)
        (poolScript []) =
      some (([localhostDomain], none), World.mk [] (domainRequests (poolLib [] []) [])) ∧
    localhostDomain.Name = "localhost".toList ∧
    Run (poolLib [localhostDomain] []) scripted 2 (lookupArgs "localhost") (poolScript []) =
      some (Outcome.NoDomainFound, World.mk [] (domainRequests (poolLib [] []) [])) :=
  ⟨rfl, rfl, rfl⟩

/-- C4, amended: for every hostname with at least one dot, if the pool fetched
for it holds a record named exactly like the hostname, getDomain returns the
first pool record with that name and Run ends in ExactDomainMatch with that
record's GUID, in the world the domain fetch left: no further request is made. -/
theorem Run_exact_domain {σ : Type} (lib : Lib) (cli : CliConnection σ) (fuel : Nat)
    (hostname : Str) (rest : List Str) (w w1 : World σ) (pool : List Domain) (r : Domain)
    (hdot : '.' ∈ hostname)
    (hg : getDomains lib cli fuel (getPossibleDomains hostname) w = some ((pool, none), w1))
    (hr : r ∈ pool) (hn : r.Name = hostname) :
    ∃ d, pool.find? (fun x => decide (x.Name = hostname)) = some d ∧
      getDomain lib cli fuel hostname w = some ((d, true, none), w1) ∧
      Run lib cli fuel ("basic-plugin-command".toList :: hostname :: rest) w =
        some (Outcome.ExactDomainMatch d.GUID, w1) := by
  obtain ⟨tail, hc⟩ := getPossibleDomains_cons hostname hdot
  cases hf : findInPool hostname pool with
  | none => exact absurd hn ((findInPool_eq_none hostname pool).1 hf r hr)
  | some d =>
    have hs : selectDomain (getPossibleDomains hostname) pool = some d := by
      rw [hc]
      simp only [selectDomain, hf]
    have hd : getDomain lib cli fuel hostname w = some ((d, true, none), w1) := by
      rw [getDomain_of_getDomains lib cli fuel hostname w w1 pool hg, hs]
    refine ⟨d, ?_, hd, ?_⟩
    · rw [← findInPool_eq_find?]
      exact hf
    · rw [Run_lookup lib cli fuel hostname rest w w1 d true none hd]
      simp [(findInPool_some hostname pool d hf).2]

theorem Run_exact_domain_witness :
    Run (poolLib [barExampleCom, exampleCom] []) scripted 2 (lookupArgs "example.com")
        (poolScript []) =
      some (Outcome.ExactDomainMatch "guid-example".toList,
        World.mk [] (domainRequests (poolLib [] []) ["example.com".toList])) := by
  obtain ⟨d, hfind, -, hrun⟩ := Run_exact_domain (poolLib [barExampleCom, exampleCom] []) scripted 2
    "example.com".toList [] (poolScript [])
    (World.mk [] (domainRequests (poolLib [] []) ["example.com".toList]))
    [barExampleCom, exampleCom] exampleCom (by decide) rfl (by decide) rfl
  have hd : d = exampleCom := by
    have : some exampleCom = some d := hfind
    exact (Option.some.inj this).symm
  rw [hd] at hrun
  exact hrun
/-- C5: when getDomain found a domain named differently from the hostname and
the route fetch succeeded, the matches computed by Run are exactly the fetched
routes, in fetch order, whose Host equals the first dot-delimited segment of the
hostname; Run ends in RoutesFound with them iff there is one, and in
NoRoutesFound iff there is none. -/
theorem Run_route_filter {σ : Type} (lib : Lib) (cli : CliConnection σ) (fuel : Nat)
    (hostname : Str) (rest : List Str) (w w1 w2 : World σ) (d : Domain)
    (err : Option GoError) (routes : List Route)
    (hd : getDomain lib cli fuel hostname w = some ((d, true, err), w1))
    (hne : d.Name ≠ hostname)
    (hr : getRoutes lib cli fuel w1 = some ((routes, none), w2)) :
    subdomainOf hostname = (strings.Split hostname '.').headD [] ∧
    matchRoutes (subdomainOf hostname) routes [] =
      routes.filter (fun r => decide (r.Host = subdomainOf hostname)) ∧
    ∃ outcome,
      Run lib cli fuel ("basic-plugin-command".toList :: hostname :: rest) w =
        some (outcome, w2) ∧
      (outcome = Outcome.RoutesFound
          (routes.filter (fun r => decide (r.Host = subdomainOf hostname))) ↔
        routes.filter (fun r => decide (r.Host = subdomainOf hostname)) ≠ []) ∧
      (outcome = Outcome.NoRoutesFound ↔
        routes.filter (fun r => decide (r.Host = subdomainOf hostname)) = []) := by
  have he : err = none := (getDomain_found lib cli fuel hostname w w1 d err hd).1
  subst he
  have hm : matchRoutes (subdomainOf hostname) routes [] =
      routes.filter (fun r => decide (r.Host = subdomainOf hostname)) := by
    rw [matchRoutes_eq_filter, List.nil_append]
  refine ⟨rfl, hm, ?_⟩
  rw [Run_lookup lib cli fuel hostname rest w w1 d true none hd]
  simp only [ne_eq, not_true_eq_false, if_false, hne, hr, hm, Bool.true_eq_false,
    List.length_eq_zero]
  by_cases hz : routes.filter (fun r => decide (r.Host = subdomainOf hostname)) = []
  · refine ⟨Outcome.NoRoutesFound, by rw [if_pos hz], ?_, ?_⟩
    · simp [hz]
    · simp [hz]
  · refine ⟨Outcome.RoutesFound _, by rw [if_neg hz], ?_, ?_⟩
    · simp [hz]
    · simp [hz]

theorem Run_route_filter_witness :
    Run (poolLib [exampleCom] routeTable) scripted 2 (lookupArgs "foo.example.com")
        (poolScript [reply "r1", reply "r2"]) =
      some (Outcome.RoutesFound [fooRoute],
        World.mk [] (domainRequests (poolLib [] []) (getPossibleDomains "foo.example.com".toList)
          ++ [routesUrl, "/v2/routes?page=2".toList])) ∧
    Run (poolLib [exampleCom] routeTable) scripted 2 (lookupArgs "foo.example.com")
        (poolScript [reply "r2"]) =
      some (Outcome.NoRoutesFound,
        World.mk [] (domainRequests (poolLib [] []) (getPossibleDomains "foo.example.com".toList)
          ++ [routesUrl])) ∧
    ∃ outcome,
      Run (poolLib [exampleCom] routeTable) scripted 2 (lookupArgs "foo.example.com")
          (poolScript [reply "r1", reply "r2"]) =
        some (outcome, World.mk []
          (domainRequests (poolLib [] []) (getPossibleDomains "foo.example.com".toList)
            ++ [routesUrl, "/v2/routes?page=2".toList])) ∧
      (outcome = Outcome.RoutesFound ([fooRoute, wwwRoute, apiRoute].filter
          (fun r => decide (r.Host = subdomainOf "foo.example.com".toList))) ↔
        [fooRoute, wwwRoute, apiRoute].filter
          (fun r => decide (r.Host = subdomainOf "foo.example.com".toList)) ≠ []) ∧
      (outcome = Outcome.NoRoutesFound ↔
        [fooRoute, wwwRoute, apiRoute].filter
          (fun r => decide (r.Host = subdomainOf "foo.example.com".toList)) = []) :=
  ⟨rfl, rfl,
    (Run_route_filter (poolLib [exampleCom] routeTable) scripted 2 "foo.example.com".toList []
      (poolScript [reply "r1", reply "r2"])
      (World.mk [reply "r1", reply "r2"]
        (domainRequests (poolLib [] []) (getPossibleDomains "foo.example.com".toList)))
      _ exampleCom none [fooRoute, wwwRoute, apiRoute] rfl (by decide) rfl).2.2⟩

/-- C8: when both domain fetches succeed and no candidate of the hostname names
a pool record, getDomain returns found=false without error and Run ends in
NoDomainFound in the world the domain fetch left (no further request);
when some candidate names a pool record, getDomain returns found=true. -/
theorem getDomain_not_found {σ : Type} (lib : Lib) (cli : CliConnection σ) (fuel : Nat)
    (hostname : Str) (rest : List Str) (w w1 : World σ) (pool : List Domain)
    (hg : getDomains lib cli fuel (getPossibleDomains hostname) w = some ((pool, none), w1)) :
    ((∀ c ∈ getPossibleDomains hostname, ∀ r ∈ pool, r.Name ≠ c) →
      getDomain lib cli fuel hostname w = some ((Domain.zero, false, none), w1) ∧
      Run lib cli fuel ("basic-plugin-command".toList :: hostname :: rest) w =
        some (Outcome.NoDomainFound, w1)) ∧
    ((∃ c ∈ getPossibleDomains hostname, ∃ r ∈ pool, r.Name = c) →
      ∃ d, getDomain lib cli fuel hostname w = some ((d, true, none), w1)) := by
  have hd := getDomain_of_getDomains lib cli fuel hostname w w1 pool hg
  constructor
  · intro hno
    rw [(selectDomain_eq_none _ pool).2 hno] at hd
    refine ⟨hd, ?_⟩
    rw [Run_lookup lib cli fuel hostname rest w w1 Domain.zero false none hd]
    simp
  · rintro ⟨c, hc, r, hr, hn⟩
    cases hs : selectDomain (getPossibleDomains hostname) pool with
    | none => exact absurd hn ((selectDomain_eq_none _ pool).1 hs c hc r hr)
    | some d =>
      rw [hs] at hd
      exact ⟨d, hd⟩

theorem getDomain_not_found_witness :
    Run (poolLib [barExampleCom] []) scripted 2 (lookupArgs "foo.example.com") (poolScript []) =
      some (Outcome.NoDomainFound,
        World.mk [] (domainRequests (poolLib [] [])
          (getPossibleDomains "foo.example.com".toList))) ∧
    ∃ d, getDomain (poolLib [exampleCom] []) scripted 2 "foo.example.com".toList
        (poolScript []) =
      some ((d, true, none),
        World.mk [] (domainRequests (poolLib [] [])
          (getPossibleDomains "foo.example.com".toList))) :=
  ⟨((getDomain_not_found (poolLib [barExampleCom] []) scripted 2 "foo.example.com".toList []
      (poolScript []) _ [barExampleCom] rfl).1 (by decide)).2,
    (getDomain_not_found (poolLib [exampleCom] []) scripted 2 "foo.example.com".toList []
      (poolScript []) _ [exampleCom] rfl).2 ⟨"example.com".toList, by decide, exampleCom,
        by decide, rfl⟩⟩
/-- C9 as stated fails: for the single-label hostname localhost and a connection
that refuses every command, getDomain returns an error. -/
theorem single_label_fetch_error :
    '.' ∉ "localhost".toList ∧
    getPossibleDomains "localhost".toList = [] ∧
    getDomain (poolLib [] []) scripted 2 "localhost".toList (World.mk [] []) =
      some ((Domain.zero, false, some "connection refused".toList),
        World.mk [] [domainsUrl (poolLib [] []) "/v2/private_domains".toList []]) :=
  ⟨by decide, rfl, rfl⟩

/-- C9, amended: for every hostname without a dot the candidate list is empty,
the two domain endpoints are still fetched with the empty name list, and
whenever that fetch returns, getDomain returns the zero domain, found=false and
the error of the fetch: no error exactly when both fetches succeed. -/
theorem getDomain_single_label {σ : Type} (lib : Lib) (cli : CliConnection σ) (fuel : Nat)
    (hostname : Str) (w : World σ) (hdot : '.' ∉ hostname) :
    getPossibleDomains hostname = [] ∧
    getDomain lib cli fuel hostname w =
      (getDomains lib cli fuel [] w).map
        (fun r => ((Domain.zero, false, r.1.2), r.2)) ∧
    ∀ d found err w1, getDomain lib cli fuel hostname w = some ((d, found, err), w1) →
      found = false ∧
      (err = none ↔ ∃ pool, getDomains lib cli fuel [] w = some ((pool, none), w1)) := by
  have hc := getPossibleDomains_of_no_dot hostname hdot
  have hmap : getDomain lib cli fuel hostname w =
      (getDomains lib cli fuel [] w).map (fun r => ((Domain.zero, false, r.1.2), r.2)) := by
    simp only [getDomain, hc]
    cases hg : getDomains lib cli fuel [] w with
    | none => rfl
    | some r =>
      obtain ⟨⟨pool, e⟩, w1⟩ := r
      cases e with
      | none => simp [selectDomain]
      | some e => simp
  refine ⟨hc, hmap, ?_⟩
  intro d found err w1 h
  rw [hmap] at h
  cases hg : getDomains lib cli fuel [] w with
  | none => rw [hg] at h; simp at h
  | some r =>
    obtain ⟨⟨pool, e⟩, w2⟩ := r
    rw [hg] at h
    simp only [Option.map_some', Option.some.injEq, Prod.mk.injEq] at h
    obtain ⟨⟨-, hf, he⟩, hw⟩ := h
    subst hw
    subst he
    refine ⟨hf.symm, ?_⟩
    constructor
    · intro h0
      subst h0
      exact ⟨pool, rfl⟩
    · rintro ⟨pool2, hp⟩
      simp only [Option.some.injEq, Prod.mk.injEq] at hp
      exact hp.1.2

theorem getDomain_single_label_witness :
    getDomain (poolLib [localhostDomain] []) scripted 2 "localhost".toList (poolScript []) =
      some ((Domain.zero, false, none), World.mk [] (domainRequests (poolLib [] []) [])) := by
  have h := (getDomain_single_label (poolLib [localhostDomain] []) scripted 2
    "localhost".toList (poolScript []) (by decide)).2.1
  rw [h]
  rfl

/-- C10 as stated fails: for foo.bar.example.com with only example.com in the
pool, the matched domain differs from the hostname, the subdomain is foo, and
the hostname is not foo.example.com. -/
theorem subdomain_is_first_label_only :
    getDomain (poolLib [exampleCom] []) scripted 2 "foo.bar.example.com".toList
        (poolScript []) =
      some ((exampleCom, true, none), World.mk []
        (domainRequests (poolLib [] []) (getPossibleDomains "foo.bar.example.com".toList))) ∧
    exampleCom.Name ≠ "foo.bar.example.com".toList ∧
    subdomainOf "foo.bar.example.com".toList = "foo".toList ∧
    "foo.bar.example.com".toList ≠
      subdomainOf "foo.bar.example.com".toList ++ ".".toList ++ exampleCom.Name :=
  ⟨rfl, by decide, rfl, by decide⟩

/-- C10, amended: when getDomain finds a domain named differently from the
hostname, that name is a strict suffix of the hostname after a dot, hostname =
p ++ "." ++ Name, and the subdomain computed in Run is the first dot-delimited
segment of p; hostname = subdomain ++ "." ++ Name holds exactly when p is a
single label. -/
theorem matched_domain_suffix {σ : Type} (lib : Lib) (cli : CliConnection σ) (fuel : Nat)
    (hostname : Str) (w w1 : World σ) (d : Domain) (err : Option GoError)
    (h : getDomain lib cli fuel hostname w = some ((d, true, err), w1))
    (hne : d.Name ≠ hostname) :
    ∃ p, hostname = p ++ ".".toList ++ d.Name ∧
      subdomainOf hostname = (strings.Split p '.').headD [] ∧
      (hostname = subdomainOf hostname ++ ".".toList ++ d.Name ↔ '.' ∉ p) := by
  obtain ⟨-, pool, -, hs⟩ := getDomain_found lib cli fuel hostname w w1 d err h
  obtain ⟨⟨pre, post, hc, -⟩, -⟩ := selectDomain_some _ pool d hs
  have hmem : d.Name ∈ getPossibleDomains hostname := by
    rw [hc]
    simp
  obtain ⟨i, hi, hd⟩ := (mem_getPossibleDomains hostname d.Name).1 hmem
  have hi0 : 0 < i := by
    rcases Nat.eq_zero_or_pos i with h0 | h0
    · subst h0
      rw [List.drop_zero, strings.Join_Split] at hd
      exact absurd hd hne
    · exact h0
  have hj := strings.Join_drop (strings.Split hostname '.') ['.'] i hi0 (by omega)
  rw [strings.Join_Split, ← hd] at hj
  have htake : strings.Split (strings.Join ((strings.Split hostname '.').take i) ['.']) '.' =
      (strings.Split hostname '.').take i := by
    apply strings.Split_Join
    · intro hn
      have := congrArg List.length hn
      rw [List.length_take, List.length_nil] at this
      omega
    · intro q hq
      exact strings.Split_no_sep hostname '.' q (List.mem_of_mem_take hq)
  have hsub : subdomainOf hostname =
      (strings.Split (strings.Join ((strings.Split hostname '.').take i) ['.']) '.').headD [] := by
    rw [htake]
    unfold subdomainOf
    cases hp : strings.Split hostname '.' with
    | nil => exact absurd hp (strings.Split_ne_nil hostname '.')
    | cons a rest =>
      obtain ⟨j, rfl⟩ : ∃ j, i = j + 1 := ⟨i - 1, by omega⟩
      simp
  refine ⟨strings.Join ((strings.Split hostname '.').take i) ['.'], hj, hsub, ?_⟩
  constructor
  · intro he
    have he2 : strings.Join ((strings.Split hostname '.').take i) ['.'] ++ (['.'] ++ d.Name) =
        subdomainOf hostname ++ (['.'] ++ d.Name) := by
      have := hj.symm.trans he
      simpa [dot_toList, List.append_assoc] using this
    have hp := List.append_cancel_right he2
    rw [hp]
    unfold subdomainOf
    cases hsp : strings.Split hostname '.' with
    | nil => exact absurd hsp (strings.Split_ne_nil hostname '.')
    | cons a rest =>
      have := strings.Split_no_sep hostname '.' a (by rw [hsp]; exact List.mem_cons_self _ _)
      simpa using this
  · intro hnd
    rw [hsub, strings.Split_of_no_sep _ '.' hnd]
    exact hj

theorem matched_domain_suffix_witness :
    ∃ p, "foo.bar.example.com".toList = p ++ ".".toList ++ exampleCom.Name ∧
      subdomainOf "foo.bar.example.com".toList = (strings.Split p '.').headD [] ∧
      ("foo.bar.example.com".toList =
        subdomainOf "foo.bar.example.com".toList ++ ".".toList ++ exampleCom.Name ↔ '.' ∉ p) :=
  matched_domain_suffix (poolLib [exampleCom] []) scripted 2 "foo.bar.example.com".toList
    (poolScript []) _ exampleCom none rfl (by decide)
